import Mathlib

/-!
# Verification of the piccolo_admin media-storage core

A shallow embedding of `piccolo_admin/media/base.py` and
`piccolo_admin/media/local.py`.  Python strings are modelled as `List Char`;
the fallible `generate_file_id` returns `Except FileIdError (List Char)`.
-/

set_option maxRecDepth 4000

namespace PiccoloMedia

/-- Convert a Lean string literal to the `List Char` representation used by
the model. -/
def strOf (s : String) : List Char := s.data

/-! ## Python string / path primitives -/

/-- Model of `pathlib.Path(s).name` (POSIX): split the path on `'/'`,
drop empty components and `"."` components, and return the last remaining
component (or the empty string when none remains).  Note that `".."`
components are kept, matching `pathlib`. -/
def pathName (s : List Char) : List Char :=
  ((s.splitOn '/').filter (fun c => ¬ c.isEmpty ∧ c ≠ ['.'])).getLastD []

/-- Model of the Python substring test `".." in s`: `true` iff `s` has two
adjacent `'.'` characters. -/
def hasDD : List Char → Bool
  | c₁ :: c₂ :: rest => (c₁ = '.' && c₂ = '.') || hasDD (c₂ :: rest)
  | _ => false

/-- Model of `s.rsplit(".", 1)`: `some (base, ext)` splitting at the last
`'.'` of `s`, or `none` when `s` contains no `'.'` (in Python the result is
then the singleton list `[s]`). -/
def rsplitDot : List Char → Option (List Char × List Char)
  | [] => none
  | c :: rest =>
    match rsplitDot rest with
    | some (base, ext) => some (c :: base, ext)
    | none => if c = '.' then some ([], rest) else none

/-- Model of Python truthiness for an optional list (`None` and the empty
list are falsy). -/
def truthy : Option (List α) → Bool
  | none => false
  | some l => !l.isEmpty

/-! ## Constants from `media/base.py` -/

/-- `ALLOWED_EXTENSIONS` from `base.py`: audio, data, document, image,
text and video extensions. -/
def ALLOWED_EXTENSIONS : List (List Char) :=
  [strOf "mp3", strOf "wav",
   strOf "csv", strOf "tsv",
   strOf "pdf",
   strOf "gif", strOf "jpeg", strOf "jpg", strOf "png", strOf "svg",
   strOf "tif", strOf "webp",
   strOf "rtf", strOf "txt",
   strOf "mov", strOf "mp4", strOf "webm"]

/-- `ALLOWED_CHARACTERS` from `base.py`: ASCII letters, digits, space,
hyphen, underscore and dot. -/
def ALLOWED_CHARACTERS : List Char :=
  strOf "abcdefghijklmnopqrstuvwxyzABCDEFGHIJKLMNOPQRSTUVWXYZ0123456789 -_."

/-! ## MediaStorage configuration -/

/-- The validation-relevant fields of a `MediaStorage` instance:
`self.allowed_extensions` and `self.allowed_characters` (after
`__init__` ran). -/
structure Config where
  allowed_extensions : Option (List (List Char))
  allowed_characters : Option (List Char)

/-- `MediaStorage.__init__`'s treatment of `allowed_extensions`:
`[i.lower() for i in allowed_extensions] if allowed_extensions else None`. -/
def initAllowedExtensions (aexts : Option (List (List Char))) :
    Option (List (List Char)) :=
  if truthy aexts then
    aexts.map (fun l => l.map (fun e => e.map Char.toLower))
  else
    none

/-- The configuration produced by constructing a storage with the default
arguments. -/
def defaultConfig : Config :=
  { allowed_extensions := initAllowedExtensions (some ALLOWED_EXTENSIONS)
    allowed_characters := some ALLOWED_CHARACTERS }

/-- The `ValueError`s that `MediaStorage.generate_file_id` can raise,
one constructor per distinct message. -/
inductive FileIdError where
  /-- "The file name can't be empty." -/
  | emptyName : FileIdError
  /-- "File names must not start with a period." -/
  | hiddenFile : FileIdError
  /-- "File names must not contain '..'." -/
  | pathTraversal : FileIdError
  /-- "'{character}' is not allowed in the filename." -/
  | disallowedCharacter (c : Char) : FileIdError
  /-- "This file type isn't allowed." -/
  | extensionNotAllowed : FileIdError
  /-- "The file has no extension." -/
  | missingExtension : FileIdError
deriving DecidableEq, Repr

/-- Model of `MediaStorage.generate_file_id`.  The random UUID
(`uuid.uuid4()` rendered as its canonical string) is injected as the
`uuidStr` argument. -/
def generate_file_id (cfg : Config) (uuidStr : List Char)
    (file_name : List Char) : Except FileIdError (List Char) :=
  if file_name.isEmpty then .error .emptyName else
  -- file_name = pathlib.Path(file_name).name
  let file_name := pathName file_name
  -- if file_name.startswith("."):
  if file_name.head? = some '.' then .error .hiddenFile else
  -- if ".." in file_name:
  if hasDD file_name then .error .pathTraversal else
  -- if self.allowed_characters: for character in file_name: ...
  match
    (if truthy cfg.allowed_characters then
      file_name.find?
        (fun character => character ∉ cfg.allowed_characters.getD [])
    else none) with
  | some character => .error (.disallowedCharacter character)
  | none =>
    -- components = file_name.rsplit(".", 1)
    match rsplitDot file_name with
    | none => .error .missingExtension
    | some (name, extension) =>
      if truthy cfg.allowed_extensions
          ∧ extension.map Char.toLower ∉ cfg.allowed_extensions.getD [] then
        .error .extensionNotAllowed
      else
        -- if len(file_name) > 50: name = name[:50]
        let name := if file_name.length > 50 then name.take 50 else name
        -- file_id = f"{name}-{uuid_}" (+ f".{extension}" if extension)
        let file_id := name ++ '-' :: uuidStr
        let file_id :=
          if !extension.isEmpty then file_id ++ '.' :: extension else file_id
        .ok file_id

/-- The fixed UUID used throughout the test-suite scenarios. -/
def fixedUuid : List Char := strOf "fd0125c7-8777-4976-83c1-81605d5ab155"

/-! ## Reconciliation (`MediaStorage.get_unused_file_keys`,
`MediaStorage.delete_unused_files`) -/

/-- Model of `MediaStorage.get_unused_file_keys`:
`list(set(disk_keys) - set(db_keys))`.  The Python `set` fixes no order,
so the set difference is rendered as a duplicate-free list of the disk
keys that are not database keys. -/
def get_unused_file_keys [DecidableEq α] (db_keys disk_keys : List α) :
    List α :=
  (disk_keys.filter (fun k => k ∉ db_keys)).dedup

/-- The observable outcome of one `delete_unused_files` run: the count it
prints, the example keys it prints, and the argument of the
`bulk_delete_files` call (`none` when `bulk_delete_files` is never
invoked). -/
structure DeleteRun (α : Type) where
  reported : Nat
  shown : List α
  deleted : Option (List α)
deriving DecidableEq, Repr

/-- Model of `MediaStorage.delete_unused_files`.  The interactive
`input(...) == "y"` gate is injected as the boolean `confirm`;
`number_shown` bounds the example keys printed. -/
def delete_unused_files [DecidableEq α] (db_keys disk_keys : List α)
    (number_shown : Nat) (auto : Bool) (confirm : Bool) : DeleteRun α :=
  let unused_file_keys := get_unused_file_keys db_keys disk_keys
  let number_unused := unused_file_keys.length
  -- print(f"There are {number_unused} unused files.")
  if number_unused ≠ 0 then
    { reported := number_unused
      shown := unused_file_keys.take number_shown
      deleted :=
        if auto || confirm then some unused_file_keys else none }
  else
    { reported := number_unused, shown := [], deleted := none }

/-! ## Local filesystem backend (`media/local.py`) -/

/-- A directory of stored files: an association list from path to the
pair (stored bytes, permission mode). -/
def LocalFS := List (List Char × (List Nat × Nat))

/-- Model of the `save` closure inside `LocalMediaStorage.store_file`,
acting on a directory state.  Returns the new state and `none` on
success, or the unchanged state and the `IOError` message on a key
collision.  `defaultMode` is the mode `open(path, "wb")` gives a fresh
file (umask-dependent); the subsequent `os.chmod(path, 0o640)` runs
exactly when `file_permissions` is not `None`, and — as written in the
source — applies the literal mode `0o640`, not the value of
`file_permissions`. -/
def store_save (file_permissions : Option Nat) (defaultMode : Nat)
    (fs : LocalFS) (path : List Char) (contents : List Nat) :
    LocalFS × Option (List Char) :=
  -- if os.path.exists(path): raise IOError("Unable to save the file")
  if (fs.lookup path).isSome then
    (fs, some (strOf "Unable to save the file"))
  else
    -- open(path, "wb"); shutil.copyfileobj(file, new_file)
    -- if file_permissions is not None: os.chmod(path, 0o640)
    let mode := if file_permissions.isSome then 0o640 else defaultMode
    ((path, (contents, mode)) :: fs, none)

/-- The default `file_permissions` argument of
`LocalMediaStorage.__init__`: `0o640`. -/
def defaultFilePermissions : Option Nat := some 0o640

/-- Model of `str.rstrip("/")`: drop all trailing `'/'` characters. -/
def rstripSlash (s : List Char) : List Char :=
  (s.reverse.dropWhile (fun c => c = '/')).reverse

/-- Model of `LocalMediaStorage.generate_file_url`:
`"/".join((root_url.rstrip("/"), file_id))`. -/
def generate_file_url (file_id root_url : List Char) : List Char :=
  rstripSlash root_url ++ '/' :: file_id

/-- "`l` contains the substring `s`": some occurrence of `s` appears
contiguously inside `l`.  This is the meaning of Python's `s in l`. -/
def ContainsSub (s l : List Char) : Prop :=
  ∃ l₁ l₂, l₁ ++ s ++ l₂ = l

/-- Hexadecimal digit characters, as they appear in the canonical
rendering of a UUID. -/
def isHexChar (c : Char) : Bool :=
  c.isDigit || ('a' ≤ c && c ≤ 'f') || ('A' ≤ c && c ≤ 'F')

/-! ## Helper lemmas -/

theorem pathName_nil : pathName [] = [] := rfl

theorem rstripSlash_eq_rdropWhile (s : List Char) :
    rstripSlash s = s.rdropWhile (fun c => c = '/') := rfl

theorem hasDD_cons (c : Char) (l : List Char) :
    hasDD (c :: l) =
      ((c = '.' && decide (l.head? = some '.')) || hasDD l) := by
  cases l <;> simp [hasDD]

theorem hasDD_append_iff (a b : List Char) :
    hasDD (a ++ b) = true ↔
      hasDD a = true ∨ (a.getLast? = some '.' ∧ b.head? = some '.')
        ∨ hasDD b = true := by
  induction a with
  | nil => simp [hasDD]
  | cons c a ih =>
    cases a with
    | nil =>
      rw [List.cons_append, hasDD_cons]
      simp [hasDD]
    | cons d ds =>
      rw [List.cons_append, hasDD_cons, hasDD_cons c (d :: ds),
        List.getLast?_cons_cons]
      simp only [Bool.or_eq_true, Bool.and_eq_true, decide_eq_true_eq]
      rw [ih]
      simp only [List.cons_append, List.head?_cons]
      tauto

theorem hasDD_of_no_dot {l : List Char} (h : '.' ∉ l) : hasDD l = false := by
  induction l with
  | nil => rfl
  | cons c l ih =>
    rw [hasDD_cons]
    simp only [List.mem_cons, not_or] at h
    have hc : ¬ (c = '.') := fun e => h.1 e.symm
    simp [hc, ih h.2]

theorem hasDD_take {l : List Char} (n : Nat) (h : hasDD l = false) :
    hasDD (l.take n) = false := by
  by_contra hc
  rw [Bool.not_eq_false] at hc
  have hdd := (hasDD_append_iff (l.take n) (l.drop n)).mpr (Or.inl hc)
  rw [List.take_append_drop, h] at hdd
  exact Bool.noConfusion hdd

theorem hasDD_iff_containsSub (l : List Char) :
    hasDD l = true ↔ ContainsSub (strOf "..") l := by
  constructor
  · intro h
    induction l with
    | nil => simp [hasDD] at h
    | cons c l ih =>
      rw [hasDD_cons] at h
      simp only [Bool.or_eq_true, Bool.and_eq_true, decide_eq_true_eq] at h
      rcases h with ⟨hc, hh⟩ | h
      · subst hc
        cases l with
        | nil => simp at hh
        | cons d ds =>
          simp only [List.head?_cons, Option.some.injEq] at hh
          subst hh
          exact ⟨[], ds, rfl⟩
      · obtain ⟨l₁, l₂, hl⟩ := ih h
        exact ⟨c :: l₁, l₂, by rw [← hl]; rfl⟩
  · rintro ⟨l₁, l₂, rfl⟩
    refine (hasDD_append_iff _ _).mpr (Or.inl ?_)
    refine (hasDD_append_iff _ _).mpr (Or.inr (Or.inr ?_))
    decide

theorem rsplitDot_eq_append {n b e : List Char}
    (h : rsplitDot n = some (b, e)) : n = b ++ '.' :: e := by
  induction n generalizing b e with
  | nil => simp [rsplitDot] at h
  | cons c rest ih =>
    rw [rsplitDot] at h
    cases hr : rsplitDot rest with
    | some be =>
      obtain ⟨b', e'⟩ := be
      rw [hr] at h
      simp only [Option.some.injEq, Prod.mk.injEq] at h
      obtain ⟨hb, he⟩ := h
      subst hb; subst he
      rw [List.cons_append]
      exact congrArg (c :: ·) (ih hr)
    | none =>
      rw [hr] at h
      by_cases hc : c = '.'
      · rw [if_pos hc] at h
        simp only [Option.some.injEq, Prod.mk.injEq] at h
        obtain ⟨hb, he⟩ := h
        subst hb; subst he; subst hc
        rfl
      · rw [if_neg hc] at h
        exact absurd h (by simp)

theorem rsplitDot_none_iff (n : List Char) :
    rsplitDot n = none ↔ '.' ∉ n := by
  induction n with
  | nil => simp [rsplitDot]
  | cons c rest ih =>
    rw [rsplitDot]
    cases hr : rsplitDot rest with
    | some be =>
      simp only [List.mem_cons]
      constructor
      · intro h; exact absurd h (by simp)
      · intro h
        exact absurd (ih.mpr (fun hm => h (Or.inr hm))) (by simp [hr])
    | none =>
      by_cases hc : c = '.'
      · subst hc; simp
      · simp only [if_neg hc, List.mem_cons, true_iff]
        push_neg
        exact ⟨fun h => hc h.symm, ih.mp hr⟩

theorem rsplitDot_no_dot_in_ext {n b e : List Char}
    (h : rsplitDot n = some (b, e)) : '.' ∉ e := by
  induction n generalizing b e with
  | nil => simp [rsplitDot] at h
  | cons c rest ih =>
    rw [rsplitDot] at h
    cases hr : rsplitDot rest with
    | some be =>
      obtain ⟨b', e'⟩ := be
      rw [hr] at h
      simp only [Option.some.injEq, Prod.mk.injEq] at h
      rw [← h.2]
      exact ih hr
    | none =>
      rw [hr] at h
      by_cases hc : c = '.'
      · rw [if_pos hc] at h
        simp only [Option.some.injEq, Prod.mk.injEq] at h
        rw [← h.2]
        exact (rsplitDot_none_iff rest).mp hr
      · rw [if_neg hc] at h
        exact absurd h (by simp)

theorem head?_take_of_ne_zero {n : Nat} (hn : n ≠ 0) (l : List Char) :
    (l.take n).head? = l.head? := by
  rw [List.head?_take, if_neg hn]

theorem rsplitDot_getLast_dot {n : List Char}
    (h : n.getLast? = some '.') : rsplitDot n = some (n.dropLast, []) := by
  induction n with
  | nil => simp at h
  | cons c rest ih =>
    cases rest with
    | nil =>
      simp only [List.getLast?_singleton, Option.some.injEq] at h
      subst h
      rfl
    | cons d ds =>
      rw [List.getLast?_cons_cons] at h
      have := ih h
      rw [rsplitDot, this]
      rfl

/-- Inversion of a successful `generate_file_id` run: the stripped name
passed every check, and the returned key has the documented shape. -/
theorem generate_file_id_ok_inv {cfg : Config} {uuid f k : List Char}
    (h : generate_file_id cfg uuid f = .ok k) :
    ∃ base ext,
      ¬ (pathName f).head? = some '.' ∧
      hasDD (pathName f) = false ∧
      rsplitDot (pathName f) = some (base, ext) ∧
      k = (if (pathName f).length > 50 then base.take 50 else base)
            ++ '-' :: uuid ++ (if !ext.isEmpty then '.' :: ext else []) := by
  simp only [generate_file_id] at h
  split at h
  · exact absurd h (by simp)
  split at h
  · exact absurd h (by simp)
  next hhead =>
  split at h
  · exact absurd h (by simp)
  next hdd =>
  split at h
  · exact absurd h (by simp)
  split at h
  · exact absurd h (by simp)
  next base ext hsp =>
  split at h
  · exact absurd h (by simp)
  simp only [Except.ok.injEq] at h
  subst h
  refine ⟨base, ext, hhead, by simpa using hdd, hsp, ?_⟩
  cases hext : ext.isEmpty <;> simp [hext]

/-- C1. For every filename accepted by `generate_file_id`, the base name
(the part of the stripped name before the last dot) is truncated to its
first 50 characters exactly when the stripped filename is longer than 50
characters, the extension is kept intact, and otherwise the base name is
unchanged; concretely, 200 `'a'`s followed by `".jpg"`, with the random
id fixed to `fd0125c7-8777-4976-83c1-81605d5ab155`, yields exactly 50
`'a'`s, the hyphenated id, and the `.jpg` extension. -/
theorem generate_file_id_truncation (cfg : Config) (uuid f k : List Char)
    (h : generate_file_id cfg uuid f = .ok k) :
    (∃ base ext,
      rsplitDot (pathName f) = some (base, ext) ∧
      k = (if (pathName f).length > 50 then base.take 50 else base)
            ++ '-' :: uuid ++ (if !ext.isEmpty then '.' :: ext else [])) ∧
    generate_file_id defaultConfig fixedUuid
        (List.replicate 200 'a' ++ strOf ".jpg")
      = .ok (strOf
        "aaaaaaaaaaaaaaaaaaaaaaaaaaaaaaaaaaaaaaaaaaaaaaaaaa-fd0125c7-8777-4976-83c1-81605d5ab155.jpg") := by
  obtain ⟨base, ext, _, _, hsp, hk⟩ := generate_file_id_ok_inv h
  exact ⟨⟨base, ext, hsp, hk⟩, rfl⟩

/-- Witness for C1 at the concrete input `"bulb.jpg"`. -/
theorem generate_file_id_truncation_witness :
    ∃ base ext,
      rsplitDot (pathName (strOf "bulb.jpg")) = some (base, ext) ∧
      strOf "bulb-fd0125c7-8777-4976-83c1-81605d5ab155.jpg"
        = (if (pathName (strOf "bulb.jpg")).length > 50 then base.take 50
            else base)
            ++ '-' :: fixedUuid ++ (if !ext.isEmpty then '.' :: ext else []) :=
  (generate_file_id_truncation defaultConfig fixedUuid (strOf "bulb.jpg")
    (strOf "bulb-fd0125c7-8777-4976-83c1-81605d5ab155.jpg") rfl).1

/-- C2 (counterexample): a filename that contains `".."` only in its
directory part is not rejected — `generate_file_id` strips the directory
components first, so `"../bulb.jpg"` yields a key instead of raising the
path-traversal error. -/
theorem generate_file_id_dotdot_counterexample :
    ContainsSub (strOf "..") (strOf "../bulb.jpg") ∧
    generate_file_id defaultConfig fixedUuid (strOf "../bulb.jpg")
      = .ok (strOf "bulb-fd0125c7-8777-4976-83c1-81605d5ab155.jpg") :=
  ⟨⟨[], strOf "/bulb.jpg", rfl⟩, rfl⟩

/-- C2 (amended): for every filename whose final path component (after
directory stripping) contains the substring `".."` and does not start
with `'.'`, `generate_file_id` raises the path-traversal `ValueError`,
under every configuration of allowed extensions and characters. -/
theorem generate_file_id_rejects_dotdot (cfg : Config) (uuid f : List Char)
    (hdd : ContainsSub (strOf "..") (pathName f))
    (hhead : ¬ (pathName f).head? = some '.') :
    generate_file_id cfg uuid f = .error .pathTraversal := by
  have hne : f ≠ [] := by
    intro hf
    subst hf
    rw [pathName_nil] at hdd
    obtain ⟨l₁, l₂, hl⟩ := hdd
    exact absurd hl (by simp [strOf])
  have hb : hasDD (pathName f) = true := (hasDD_iff_containsSub _).mpr hdd
  simp only [generate_file_id]
  rw [if_neg (by simpa [List.isEmpty_iff] using hne), if_neg hhead,
    if_pos hb]

/-- Witness for the amended C2 at the concrete input
`"test..file.jpeg"`. -/
theorem generate_file_id_rejects_dotdot_witness :
    generate_file_id defaultConfig fixedUuid (strOf "test..file.jpeg")
      = .error .pathTraversal :=
  generate_file_id_rejects_dotdot defaultConfig fixedUuid
    (strOf "test..file.jpeg")
    ⟨strOf "test", strOf "file.jpeg", rfl⟩ (by decide)

/-- C8. Whenever `generate_file_id` returns a key, and the injected UUID
is rendered in canonical hyphenated hexadecimal form, the key neither
begins with `'.'` nor contains the substring `".."`. -/
theorem generate_file_id_key_invariant (cfg : Config) (uuid f k : List Char)
    (hu : ∀ c ∈ uuid, isHexChar c = true ∨ c = '-')
    (h : generate_file_id cfg uuid f = .ok k) :
    ¬ k.head? = some '.' ∧ ¬ ContainsSub (strOf "..") k := by
  obtain ⟨base, ext, hhead, hdd, hsp, hk⟩ := generate_file_id_ok_inv h
  have hfe := rsplitDot_eq_append hsp
  have hbne : base ≠ [] := by
    intro hb
    rw [hb, List.nil_append] at hfe
    rw [hfe] at hhead
    exact hhead rfl
  have hud : '.' ∉ uuid := by
    intro hm
    rcases hu '.' hm with hx | hx
    · exact absurd hx (by decide)
    · exact absurd hx (by decide)
  have hdb : hasDD base = false := by
    by_contra hc
    rw [Bool.not_eq_false] at hc
    have hw := (hasDD_append_iff base ('.' :: ext)).mpr (Or.inl hc)
    rw [← hfe, hdd] at hw
    exact Bool.noConfusion hw
  have hdb' :
      hasDD (if (pathName f).length > 50 then base.take 50 else base)
        = false := by
    split
    · exact hasDD_take _ hdb
    · exact hdb
  have hb'ne :
      (if (pathName f).length > 50 then base.take 50 else base) ≠ [] := by
    split
    · intro hc
      rcases List.take_eq_nil_iff.mp hc with h50 | hbnil
      · exact absurd h50 (by decide)
      · exact hbne hbnil
    · exact hbne
  have hb'h :
      (if (pathName f).length > 50 then base.take 50 else base).head?
        = base.head? := by
    split
    · exact head?_take_of_ne_zero (by decide) base
    · rfl
  have hbh : ¬ base.head? = some '.' := by
    rw [← @List.head?_append_of_ne_nil _ base ('.' :: ext) hbne, ← hfe]
    exact hhead
  constructor
  · rw [hk, List.head?_append_of_ne_nil _ (by simp [hb'ne]),
      List.head?_append_of_ne_nil _ hb'ne, hb'h]
    exact hbh
  · intro hcs
    have hk' : hasDD k = true := (hasDD_iff_containsSub k).mpr hcs
    rw [hk] at hk'
    have hlast :
        ¬ ((if (pathName f).length > 50 then base.take 50 else base)
            ++ '-' :: uuid).getLast? = some '.' := by
      rw [List.getLast?_append_cons]
      have hne2 : ('-' :: uuid) ≠ [] := by simp
      rw [List.getLast?_eq_getLast _ hne2]
      intro hsome
      rw [Option.some.injEq] at hsome
      have hmem := List.getLast_mem hne2
      rw [hsome] at hmem
      rcases List.mem_cons.mp hmem with he | hm2
      · exact absurd he (by decide)
      · exact hud hm2
    have hmid :
        hasDD ((if (pathName f).length > 50 then base.take 50 else base)
            ++ '-' :: uuid) = false := by
      by_contra hc
      rw [Bool.not_eq_false] at hc
      rcases (hasDD_append_iff _ _).mp hc with h1 | h2 | h3
      · rw [hdb'] at h1
        exact Bool.noConfusion h1
      · exact absurd h2.2 (by simp)
      · have hno : '.' ∉ '-' :: uuid := by
          intro hm
          rcases List.mem_cons.mp hm with he | hm2
          · exact absurd he (by decide)
          · exact hud hm2
        rw [hasDD_of_no_dot hno] at h3
        exact Bool.noConfusion h3
    rcases (hasDD_append_iff _ _).mp hk' with h1 | h2 | h3
    · rw [hmid] at h1
      exact Bool.noConfusion h1
    · exact hlast h2.1
    · have hde : '.' ∉ ext := rsplitDot_no_dot_in_ext hsp
      cases ext with
      | nil => simp [hasDD] at h3
      | cons e es =>
        simp only [List.isEmpty_cons, Bool.not_false, if_pos] at h3
        have hef : hasDD (e :: es) = false := hasDD_of_no_dot hde
        rw [hasDD_cons] at h3
        simp only [List.head?_cons, Option.some.injEq, Bool.or_eq_true,
          Bool.and_eq_true, decide_eq_true_eq] at h3
        rcases h3 with ⟨_, he⟩ | h3
        · exact hde (by simp [he])
        · rw [hef] at h3
          exact Bool.noConfusion h3

/-- Witness for C8 at the concrete input `"bulb.jpg"` with the fixed
canonical UUID. -/
theorem generate_file_id_key_invariant_witness :
    ¬ (strOf "bulb-fd0125c7-8777-4976-83c1-81605d5ab155.jpg").head?
        = some '.' ∧
    ¬ ContainsSub (strOf "..")
        (strOf "bulb-fd0125c7-8777-4976-83c1-81605d5ab155.jpg") :=
  generate_file_id_key_invariant defaultConfig fixedUuid (strOf "bulb.jpg")
    (strOf "bulb-fd0125c7-8777-4976-83c1-81605d5ab155.jpg")
    (by decide) rfl

theorem find?_append_first {α : Type} (P : α → Bool) (l₁ l₂ : List α)
    (c : α) (hok : ∀ x ∈ l₁, P x = false) (hc : P c = true) :
    (l₁ ++ c :: l₂).find? P = some c := by
  induction l₁ with
  | nil => rw [List.nil_append, List.find?_cons_of_pos _ hc]
  | cons x xs ih =>
    rw [List.cons_append,
      List.find?_cons_of_neg _ (by simp [hok x (List.mem_cons_self x xs)])]
    exact ih (fun y hy => hok y (List.mem_cons_of_mem x hy))

/-- C3 (code bug): the save step of `LocalMediaStorage.store_file` passes
the literal `0o640` to `os.chmod` instead of the configured
`file_permissions` value, so a backend configured with
`file_permissions=0o600` still stores files with mode `0o640`; only the
default configuration (`0o640`) behaves as documented. -/
theorem store_save_hardcodes_mode (d : Nat) (path : List Char)
    (contents : List Nat) :
    store_save (some 0o600) d [] path contents
      = ([(path, (contents, 0o640))], none) ∧
    defaultFilePermissions = some 0o640 ∧ (0o640 : Nat) ≠ 0o600 :=
  ⟨rfl, rfl, by decide⟩

/-- C4. `get_unused_file_keys` computes exactly the set difference
`set(disk) − set(db)`: membership is "on disk and not in the database",
the result has no duplicates, and equal key sets give an empty result;
concretely, reference set `{a,b}` against disk set `{a,b,c}` leaves
`{c}`. -/
theorem get_unused_file_keys_set_diff {α : Type} [DecidableEq α]
    (db_keys disk_keys : List α) :
    (∀ k, k ∈ get_unused_file_keys db_keys disk_keys
        ↔ k ∈ disk_keys ∧ k ∉ db_keys) ∧
    (get_unused_file_keys db_keys disk_keys).Nodup ∧
    ((∀ k, k ∈ disk_keys ↔ k ∈ db_keys) →
      get_unused_file_keys db_keys disk_keys = []) ∧
    get_unused_file_keys [strOf "a", strOf "b"]
        [strOf "a", strOf "b", strOf "c"] = [strOf "c"] := by
  have hmem : ∀ k, k ∈ get_unused_file_keys db_keys disk_keys
      ↔ k ∈ disk_keys ∧ k ∉ db_keys := by
    intro k
    rw [get_unused_file_keys, List.mem_dedup, List.mem_filter]
    simp
  refine ⟨hmem, List.nodup_dedup _, fun heq => ?_, rfl⟩
  rw [List.eq_nil_iff_forall_not_mem]
  intro k hk
  rw [hmem] at hk
  exact hk.2 ((heq k).mp hk.1)

/-- Witness for C4: when the disk set equals the reference set the unused
set is empty. -/
theorem get_unused_file_keys_set_diff_witness :
    get_unused_file_keys [strOf "a", strOf "b"] [strOf "a", strOf "b"]
      = [] :=
  (get_unused_file_keys_set_diff [strOf "a", strOf "b"]
    [strOf "a", strOf "b"]).2.2.1 (fun _ => Iff.rfl)

/-- C5. `delete_unused_files` invokes `bulk_delete_files` only when the
unused set is non-empty and the `auto` flag is set or the interactive
gate confirms; on an empty unused set it reports a count of zero and
performs no deletion. -/
theorem delete_unused_files_gate {α : Type} [DecidableEq α]
    (db_keys disk_keys : List α) (n : Nat) (auto confirm : Bool) :
    ((delete_unused_files db_keys disk_keys n auto confirm).deleted ≠ none →
      get_unused_file_keys db_keys disk_keys ≠ []
        ∧ (auto = true ∨ confirm = true)) ∧
    (get_unused_file_keys db_keys disk_keys = [] →
      (delete_unused_files db_keys disk_keys n auto confirm).reported = 0
        ∧ (delete_unused_files db_keys disk_keys n auto confirm).deleted
            = none) := by
  constructor
  · intro hdel
    constructor
    · intro hu
      apply hdel
      simp [delete_unused_files, hu]
    · by_contra hac
      push_neg at hac
      apply hdel
      cases auto with
      | true => exact absurd rfl hac.1
      | false =>
        cases confirm with
        | true => exact absurd rfl hac.2
        | false =>
          simp only [delete_unused_files]
          split <;> rfl
  · intro hu
    constructor <;> simp [delete_unused_files, hu]

/-- Witness for C5 at a concrete equal pair of key sets. -/
theorem delete_unused_files_gate_witness :
    (delete_unused_files [strOf "a"] [strOf "a"] 10 false false).reported = 0
      ∧ (delete_unused_files [strOf "a"] [strOf "a"] 10 false false).deleted
          = none :=
  (delete_unused_files_gate [strOf "a"] [strOf "a"] 10 false false).2 rfl

/-- C6. If a file already exists at the target path, the save step of
`LocalMediaStorage.store_file` fails with "Unable to save the file" and
leaves the directory untouched: the existence check precedes any
write. -/
theorem store_save_collision (fp : Option Nat) (d : Nat) (fs : LocalFS)
    (path : List Char) (contents : List Nat) (old : List Nat × Nat)
    (h : fs.lookup path = some old) :
    store_save fp d fs path contents
      = (fs, some (strOf "Unable to save the file")) := by
  simp [store_save, h]

/-- Witness for C6: storing into an occupied path fails and preserves the
existing entry. -/
theorem store_save_collision_witness :
    store_save defaultFilePermissions 420
        [(strOf "a.jpg", ([7], 420))] (strOf "a.jpg") [9]
      = ([(strOf "a.jpg", ([7], 420))],
          some (strOf "Unable to save the file")) :=
  store_save_collision defaultFilePermissions 420 _ _ _ _ rfl

/-- C7. With a configured (truthy) allowed-character set, a filename
whose stripped form passes the dot checks but contains a disallowed
character is rejected with `DisallowedCharacter` naming the first such
character — before the extension split, so even when the offending
character or the extension itself would also be rejected later. -/
theorem generate_file_id_disallowed_char (cfg : Config)
    (uuid f : List Char) (c : Char) (l₁ l₂ : List Char)
    (ht : truthy cfg.allowed_characters = true)
    (hhead : ¬ (pathName f).head? = some '.')
    (hdd : hasDD (pathName f) = false)
    (hsplit : pathName f = l₁ ++ c :: l₂)
    (hok : ∀ x ∈ l₁, x ∈ cfg.allowed_characters.getD [])
    (hc : c ∉ cfg.allowed_characters.getD []) :
    generate_file_id cfg uuid f = .error (.disallowedCharacter c) := by
  have hne : f ≠ [] := by
    intro hf
    subst hf
    rw [pathName_nil] at hsplit
    exact absurd hsplit.symm (by simp)
  have hfind : (pathName f).find?
      (fun ch => ch ∉ cfg.allowed_characters.getD []) = some c := by
    rw [hsplit]
    exact find?_append_first _ l₁ l₂ c (fun x hx => by simp [hok x hx])
      (by simp [hc])
  simp only [generate_file_id]
  rw [if_neg (by simpa [List.isEmpty_iff] using hne), if_neg hhead,
    if_neg (by simp [hdd]), if_pos ht, hfind]

/-- Witness for C7: `"te@st.xyz"` is rejected on `'@'` even though its
extension `"xyz"` would also be rejected. -/
theorem generate_file_id_disallowed_char_witness :
    generate_file_id defaultConfig fixedUuid (strOf "te@st.xyz")
      = .error (.disallowedCharacter '@') :=
  generate_file_id_disallowed_char defaultConfig fixedUuid
    (strOf "te@st.xyz") '@' (strOf "te") (strOf "st.xyz")
    rfl (by decide) rfl rfl (by decide) (by decide)

/-- C9. The Local backend's URL is the root with all trailing slashes
removed, a single `'/'`, then the key — so any number of trailing
slashes on the root gives the same URL, and root `"/media/"` yields
`/media/<key>`. -/
theorem generate_file_url_spec (k r : List Char) (n : Nat)
    (h : ¬ r.getLast? = some '/') :
    generate_file_url k (r ++ List.replicate n '/') = r ++ '/' :: k ∧
    generate_file_url k (strOf "/media/") = strOf "/media/" ++ k := by
  refine ⟨?_, rfl⟩
  rw [generate_file_url]
  have hself : rstripSlash (r ++ List.replicate n '/') = r := by
    rw [rstripSlash_eq_rdropWhile]
    induction n with
    | zero =>
      rw [List.replicate, List.append_nil, List.rdropWhile_eq_self_iff]
      intro hl
      simp only [decide_eq_true_eq]
      intro he
      rw [List.getLast?_eq_getLast r hl, he] at h
      exact h rfl
    | succ m ih =>
      rw [List.replicate_succ', ← List.append_assoc,
        List.rdropWhile_concat_pos _ _ _ (by decide)]
      exact ih
  rw [hself]

/-- Witness for C9 at root `"/media"` with one trailing slash added. -/
theorem generate_file_url_spec_witness :
    generate_file_url (strOf "x.jpg")
        (strOf "/media" ++ List.replicate 1 '/')
      = strOf "/media" ++ '/' :: strOf "x.jpg" ∧
    generate_file_url (strOf "x.jpg") (strOf "/media/")
      = strOf "/media/" ++ strOf "x.jpg" :=
  generate_file_url_spec (strOf "x.jpg") (strOf "/media") 1 (by decide)

/-- C10. A filename ending in a single terminal dot that passes the
earlier checks does not raise `MissingExtension`: the split produces an
empty extension, so a configured allowed-extension set (not containing
the empty string) rejects it with `ExtensionNotAllowed`, while an
unrestricted configuration returns `<base>-<uuid>` with no dot
appended. -/
theorem generate_file_id_trailing_dot (cfg : Config) (uuid f : List Char)
    (hhead : ¬ (pathName f).head? = some '.')
    (hdd : hasDD (pathName f) = false)
    (hchars : ∀ c ∈ pathName f, truthy cfg.allowed_characters = true →
        c ∈ cfg.allowed_characters.getD [])
    (hlast : (pathName f).getLast? = some '.')
    (hnoempty : [] ∉ cfg.allowed_extensions.getD []) :
    generate_file_id cfg uuid f =
      (if truthy cfg.allowed_extensions then .error .extensionNotAllowed
       else .ok ((if (pathName f).length > 50
            then (pathName f).dropLast.take 50
            else (pathName f).dropLast) ++ '-' :: uuid)) ∧
    generate_file_id cfg uuid f ≠ .error .missingExtension := by
  have hne : f ≠ [] := by
    intro hf
    subst hf
    rw [pathName_nil] at hlast
    exact absurd hlast (by simp)
  have hsp := rsplitDot_getLast_dot hlast
  have hmain : generate_file_id cfg uuid f =
      (if truthy cfg.allowed_extensions then .error .extensionNotAllowed
       else .ok ((if (pathName f).length > 50
            then (pathName f).dropLast.take 50
            else (pathName f).dropLast) ++ '-' :: uuid)) := by
    simp only [generate_file_id]
    rw [if_neg (by simpa [List.isEmpty_iff] using hne), if_neg hhead,
      if_neg (by simp [hdd])]
    have hscrut : (if truthy cfg.allowed_characters then
        (pathName f).find?
          (fun character => character ∉ cfg.allowed_characters.getD [])
      else none) = none := by
      split
      next htc =>
        rw [List.find?_eq_none]
        intro x hx
        simpa using hchars x hx htc
      · rfl
    simp only [hscrut, hsp, List.map_nil]
    by_cases hext : truthy cfg.allowed_extensions = true
    · have hcond : truthy cfg.allowed_extensions = true ∧
          ([] : List Char) ∉ cfg.allowed_extensions.getD [] :=
        ⟨hext, hnoempty⟩
      rw [if_pos hcond, if_pos hext]
    · have hcond : ¬ (truthy cfg.allowed_extensions = true ∧
          ([] : List Char) ∉ cfg.allowed_extensions.getD []) :=
        fun hcon => hext hcon.1
      rw [if_neg hcond, if_neg hext]
      simp
  refine ⟨hmain, ?_⟩
  rw [hmain]
  split <;> simp

/-- Witness for C10 at the concrete input `"photo."` with the default
(restricted) configuration. -/
theorem generate_file_id_trailing_dot_witness :
    generate_file_id defaultConfig fixedUuid (strOf "photo.") =
      (if truthy defaultConfig.allowed_extensions
        then .error .extensionNotAllowed
        else .ok ((if (pathName (strOf "photo.")).length > 50
            then (pathName (strOf "photo.")).dropLast.take 50
            else (pathName (strOf "photo.")).dropLast) ++ '-' :: fixedUuid))
      ∧
    generate_file_id defaultConfig fixedUuid (strOf "photo.")
      ≠ .error .missingExtension :=
  generate_file_id_trailing_dot defaultConfig fixedUuid (strOf "photo.")
    (by decide) rfl (by decide) rfl (by decide)

end PiccoloMedia
